import Mathlib

/-!
Shallow embedding of the Frame Timeline & Playback Engine of the
flashanimedit repository (src/src/App.js), together with proofs of the
spec claims about it.

The App component holds its whole state in reactive cells; we collect
them into one record, AppState.  A frame is an ImageData snapshot or
null (blank); pixel buffers themselves are abstract, so the embedding is
parametric in a type of pixel snapshots.  Browser canvas primitives
(stroke rendering, getImageData) are external collaborators and enter as
function parameters.
-/

namespace FlashAnimEdit

/-- CANVAS_WIDTH in App.js. -/
def CANVAS_WIDTH : Nat := 520

/-- CANVAS_HEIGHT in App.js. -/
def CANVAS_HEIGHT : Nat := 390

/-- FRAME_MS in App.js: playback tick interval in milliseconds (10 fps). -/
def FRAME_MS : Nat := 100

/-- A frame slot: an ImageData snapshot of type alpha, or null (blank). -/
abbrev Frame (α : Type) := Option α

/-- getEmptyFrame in App.js: returns null, meaning blank / canvas clear. -/
def getEmptyFrame {α : Type} : Frame α := none

/-- Array lookup frames[i]; out of range yields undefined, modeled as blank. -/
def read {α : Type} (frames : List (Frame α)) (i : Nat) : Frame α :=
  frames.getD i none

/-- The reactive state of the App component, collected into one record.
canvas is the live drawing surface: none when cleared, some s once s has
been rendered onto it. -/
structure AppState (α : Type) where
  tool : String
  color : String
  frames : List (Frame α)
  currentFrame : Nat
  playing : Bool
  drawing : Bool
  lastPt : Int × Int
  dirty : Bool
  canvas : Frame α
deriving DecidableEq

/-- The state the component starts in (the useState defaults in App.js). -/
def initialState (α : Type) : AppState α :=
  { tool := "brush", color := "#222222", frames := [getEmptyFrame],
    currentFrame := 0, playing := false, drawing := false, lastPt := (0, 0),
    dirty := false, canvas := none }

/-- addFrame in App.js: frames becomes
slice(0, currentFrame+1) ++ [getEmptyFrame()] ++ slice(currentFrame+1),
and the cursor moves to currentFrame + 1. -/
def addFrame {α : Type} (st : AppState α) : AppState α :=
  { st with
    frames := st.frames.take (st.currentFrame + 1) ++ [getEmptyFrame]
                ++ st.frames.drop (st.currentFrame + 1),
    currentFrame := st.currentFrame + 1 }

/-- deleteFrame in App.js: early return when frames.length < 2; otherwise
splice(currentFrame, 1) and the cursor becomes currentFrame - 1 if
positive, else 0. -/
def deleteFrame {α : Type} (st : AppState α) : AppState α :=
  if st.frames.length < 2 then st
  else
    { st with
      frames := st.frames.take st.currentFrame
                  ++ st.frames.drop (st.currentFrame + 1),
      currentFrame := if st.currentFrame > 0 then st.currentFrame - 1 else 0 }

/-- The commit common to the save-on-dirty effect and copyFrame in App.js:
frames.map((f, i) => (i === currentFrame ? img : f)), then setDirty(false). -/
def commitCanvas {α : Type} (st : AppState α) (img : α) : AppState α :=
  { st with
    frames := st.frames.mapIdx
      (fun i f => if i = st.currentFrame then some img else f),
    dirty := false }

/-- The save-frame-on-dirty effect in App.js: returns early unless dirty,
otherwise commits getImageData of the live canvas (snapshot models the
external getImageData call, which never returns null). -/
def saveFrameOnDirty {α : Type} (snapshot : Frame α → α)
    (st : AppState α) : AppState α :=
  if st.dirty = false then st else commitCanvas st (snapshot st.canvas)

/-- copyFrame in App.js: unconditionally commits getImageData of the live
canvas at the cursor and clears dirty. -/
def copyFrame {α : Type} (snapshot : Frame α → α)
    (st : AppState α) : AppState α :=
  commitCanvas st (snapshot st.canvas)

/-- The load-current-frame effect in App.js: clearRect, then putImageData
of frames[currentFrame] when it is non-null; the live canvas afterwards
shows exactly the stored frame. -/
def loadCurrentFrame {α : Type} (st : AppState α) : AppState α :=
  { st with canvas := read st.frames st.currentFrame }

/-- Clicking a timeline thumbnail: setCurrentFrame(i) followed by the
load-current-frame effect. -/
def navigate {α : Type} (st : AppState α) (i : Nat) : AppState α :=
  loadCurrentFrame { st with currentFrame := i }

/-- One firing of the playback interval in App.js: the timeline effect
returns early unless playing; the timer then runs
setCurrentFrame(prev => (prev + 1) % frames.length). -/
def playbackTick {α : Type} (st : AppState α) : AppState α :=
  if st.playing = false then st
  else { st with currentFrame := (st.currentFrame + 1) % st.frames.length }

/-- k successive playback timer firings. -/
def runTicks {α : Type} (st : AppState α) : Nat → AppState α
  | 0 => st
  | k + 1 => playbackTick (runTicks st k)

/-- Pressing the Play/Pause button: setPlaying(p => !p). -/
def togglePlaying {α : Type} (st : AppState α) : AppState α :=
  { st with playing := !st.playing }

/-- The structural mutations of the frame store. -/
inductive StoreOp where
  | insertAfter : StoreOp
  | delete : StoreOp

/-- Apply one structural mutation. -/
def applyOp {α : Type} (st : AppState α) : StoreOp → AppState α
  | StoreOp.insertAfter => addFrame st
  | StoreOp.delete => deleteFrame st

/-- Apply a sequence of structural mutations in order. -/
def runOps {α : Type} (st : AppState α) (ops : List StoreOp) : AppState α :=
  ops.foldl applyOp st

/-- The frame-store invariant: at least one frame, cursor in range. -/
def StoreInvariant {α : Type} (st : AppState α) : Prop :=
  1 ≤ st.frames.length ∧ st.currentFrame < st.frames.length

lemma addFrame_frames_length {α : Type} (st : AppState α) :
    (addFrame st).frames.length = st.frames.length + 1 := by
  simp only [addFrame, List.length_append, List.length_take, List.length_drop,
    List.length_cons, List.length_nil]
  omega

lemma addFrame_currentFrame {α : Type} (st : AppState α) :
    (addFrame st).currentFrame = st.currentFrame + 1 := rfl

lemma deleteFrame_of_short {α : Type} (st : AppState α)
    (h : st.frames.length < 2) : deleteFrame st = st := by
  simp [deleteFrame, h]

lemma deleteFrame_frames_length {α : Type} (st : AppState α)
    (h2 : 2 ≤ st.frames.length) (hc : st.currentFrame < st.frames.length) :
    (deleteFrame st).frames.length = st.frames.length - 1 := by
  have h : ¬ st.frames.length < 2 := by omega
  simp only [deleteFrame, h, if_false, List.length_append, List.length_take,
    List.length_drop]
  omega

lemma storeInvariant_addFrame {α : Type} (st : AppState α)
    (h : StoreInvariant st) : StoreInvariant (addFrame st) := by
  obtain ⟨h1, h2⟩ := h
  refine ⟨?_, ?_⟩
  · rw [addFrame_frames_length]; omega
  · rw [addFrame_frames_length, addFrame_currentFrame]; omega

lemma storeInvariant_deleteFrame {α : Type} (st : AppState α)
    (h : StoreInvariant st) : StoreInvariant (deleteFrame st) := by
  obtain ⟨h1, h2⟩ := h
  by_cases hlen : st.frames.length < 2
  · rw [deleteFrame_of_short st hlen]; exact ⟨h1, h2⟩
  · push_neg at hlen
    have hL := deleteFrame_frames_length st hlen h2
    have hcur : (deleteFrame st).currentFrame
        = if st.currentFrame > 0 then st.currentFrame - 1 else 0 := by
      have h' : ¬ st.frames.length < 2 := by omega
      simp [deleteFrame, h']
    constructor
    · omega
    · rw [hL, hcur]; split <;> omega

lemma storeInvariant_applyOp {α : Type} (st : AppState α) (op : StoreOp)
    (h : StoreInvariant st) : StoreInvariant (applyOp st op) := by
  cases op
  · exact storeInvariant_addFrame st h
  · exact storeInvariant_deleteFrame st h

lemma storeInvariant_runOps {α : Type} (st : AppState α) (ops : List StoreOp)
    (h : StoreInvariant st) : StoreInvariant (runOps st ops) := by
  induction ops generalizing st with
  | nil => exact h
  | cons op ops ih => exact ih (applyOp st op) (storeInvariant_applyOp st op h)

lemma storeInvariant_initialState (α : Type) :
    StoreInvariant (initialState α) := by
  constructor <;> simp [initialState]

/-- C1: starting from the initial one-blank-frame store, every sequence of
insertAfter (addFrame) and delete (deleteFrame) calls leaves the frame
store with length at least 1 and the cursor in range; since every prefix
of a sequence is itself a sequence, the invariant holds after every call. -/
theorem storeInvariant_of_runOps_initial (α : Type) (ops : List StoreOp) :
    1 ≤ (runOps (initialState α) ops).frames.length ∧
      (runOps (initialState α) ops).currentFrame
        < (runOps (initialState α) ops).frames.length :=
  storeInvariant_runOps (initialState α) ops (storeInvariant_initialState α)

lemma read_addFrame {α : Type} (st : AppState α)
    (h : st.currentFrame < st.frames.length) (j : Nat) :
    read (addFrame st).frames j =
      if j ≤ st.currentFrame then read st.frames j
      else if j = st.currentFrame + 1 then (none : Frame α)
      else read st.frames (j - 1) := by
  have htake : (st.frames.take (st.currentFrame + 1)).length
      = st.currentFrame + 1 := by
    simp only [List.length_take]; omega
  simp only [read, addFrame, List.getD_eq_getElem?_getD]
  rw [List.append_assoc, List.getElem?_append, htake]
  by_cases h1 : j ≤ st.currentFrame
  · rw [if_pos (by omega), List.getElem?_take, if_pos (by omega), if_pos h1]
  · rw [if_neg (by omega), List.getElem?_append]
    by_cases h2 : j = st.currentFrame + 1
    · subst h2
      rw [if_pos (by simp [getEmptyFrame])]
      simp [getEmptyFrame, if_neg h1]
    · have hge : ¬ (j - (st.currentFrame + 1)
          < ([getEmptyFrame] : List (Frame α)).length) := by
        simp only [List.length_singleton]; omega
      rw [if_neg hge, List.getElem?_drop, if_neg h1, if_neg h2]
      have harith : st.currentFrame + 1
          + (j - (st.currentFrame + 1) - [getEmptyFrame (α := α)].length)
          = j - 1 := by
        simp only [List.length_singleton]; omega
      rw [harith]

/-- C2: with the cursor in range, addFrame moves the cursor to
currentFrame + 1, grows the store by exactly one frame, makes the slot
just after the old cursor blank, and changes no other frame: frames at or
before the old cursor keep index and content, frames after it shift up by
one with content unchanged. -/
theorem addFrame_spec {α : Type} (st : AppState α)
    (h : st.currentFrame < st.frames.length) :
    (addFrame st).currentFrame = st.currentFrame + 1 ∧
    (addFrame st).frames.length = st.frames.length + 1 ∧
    read (addFrame st).frames (st.currentFrame + 1) = none ∧
    (∀ i, i ≤ st.currentFrame →
      read (addFrame st).frames i = read st.frames i) ∧
    (∀ i, st.currentFrame < i →
      read (addFrame st).frames (i + 1) = read st.frames i) := by
  refine ⟨rfl, addFrame_frames_length st, ?_, ?_, ?_⟩
  · rw [read_addFrame st h]
    rw [if_neg (by omega), if_pos rfl]
  · intro i hi
    rw [read_addFrame st h, if_pos hi]
  · intro i hi
    rw [read_addFrame st h, if_neg (by omega), if_neg (by omega)]
    simp only [Nat.add_sub_cancel]

/-- A concrete two-frame state used to instantiate the theorems. -/
def wStateA : AppState Nat :=
  { tool := "brush", color := "#222222", frames := [some 5, some 7],
    currentFrame := 0, playing := true, drawing := false, lastPt := (0, 0),
    dirty := false, canvas := none }

theorem addFrame_spec_witness :
    wStateA.currentFrame < wStateA.frames.length ∧
    (addFrame wStateA).currentFrame = 1 ∧
    (addFrame wStateA).frames.length = 3 ∧
    read (addFrame wStateA).frames 1 = none ∧
    read (addFrame wStateA).frames 0 = read wStateA.frames 0 ∧
    read (addFrame wStateA).frames 2 = read wStateA.frames 1 := by
  have h := addFrame_spec wStateA (by decide)
  exact ⟨by decide, h.1, h.2.1, h.2.2.1, h.2.2.2.1 0 (by decide),
    h.2.2.2.2 1 (by decide)⟩

lemma deleteFrame_frames_eq {α : Type} (st : AppState α)
    (h2 : 2 ≤ st.frames.length) :
    (deleteFrame st).frames = st.frames.eraseIdx st.currentFrame := by
  have h : ¬ st.frames.length < 2 := by omega
  simp only [deleteFrame, h, if_false]
  exact (List.eraseIdx_eq_take_drop_succ st.frames st.currentFrame).symm

lemma read_deleteFrame {α : Type} (st : AppState α)
    (h2 : 2 ≤ st.frames.length) (hc : st.currentFrame < st.frames.length)
    (j : Nat) :
    read (deleteFrame st).frames j =
      if j < st.currentFrame then read st.frames j
      else read st.frames (j + 1) := by
  have h : ¬ st.frames.length < 2 := by omega
  have htake : (st.frames.take st.currentFrame).length = st.currentFrame := by
    simp only [List.length_take]; omega
  simp only [deleteFrame, h, if_false, read, List.getD_eq_getElem?_getD]
  rw [List.getElem?_append, htake]
  by_cases h1 : j < st.currentFrame
  · rw [if_pos h1, List.getElem?_take, if_pos h1, if_pos h1]
  · rw [if_neg h1, if_neg h1, List.getElem?_drop]
    have harith : st.currentFrame + 1 + (j - st.currentFrame) = j + 1 := by
      omega
    rw [harith]

/-- C3: deleteFrame is a silent no-op when the store holds a single frame
(the whole state, hence length and read 0, is unchanged); with at least
two frames and the cursor in range it removes exactly the frame at the
cursor, shrinks the store by one, and moves the cursor to
max 0 (cursor - 1); the length never drops below 1. -/
theorem deleteFrame_spec {α : Type} (st : AppState α)
    (hc : st.currentFrame < st.frames.length) :
    (st.frames.length = 1 →
      deleteFrame st = st ∧
      (deleteFrame st).frames.length = st.frames.length ∧
      read (deleteFrame st).frames 0 = read st.frames 0) ∧
    (2 ≤ st.frames.length →
      (deleteFrame st).frames = st.frames.eraseIdx st.currentFrame ∧
      (deleteFrame st).frames.length = st.frames.length - 1 ∧
      ((deleteFrame st).currentFrame : Int)
        = max 0 ((st.currentFrame : Int) - 1)) ∧
    1 ≤ (deleteFrame st).frames.length := by
  refine ⟨?_, ?_, ?_⟩
  · intro h1
    have := deleteFrame_of_short st (by omega)
    exact ⟨this, by rw [this], by rw [this]⟩
  · intro h2
    refine ⟨deleteFrame_frames_eq st h2, deleteFrame_frames_length st h2 hc, ?_⟩
    have h : ¬ st.frames.length < 2 := by omega
    simp only [deleteFrame, h, if_false]
    split <;> omega
  · by_cases h2 : 2 ≤ st.frames.length
    · rw [deleteFrame_frames_length st h2 hc]; omega
    · rw [deleteFrame_of_short st (by omega)]; omega

theorem deleteFrame_spec_witness :
    wStateA.currentFrame < wStateA.frames.length ∧
    (deleteFrame wStateA).frames = wStateA.frames.eraseIdx 0 ∧
    (deleteFrame wStateA).frames.length = 1 ∧
    ((deleteFrame wStateA).currentFrame : Int) = max 0 ((0 : Int) - 1) ∧
    1 ≤ (deleteFrame wStateA).frames.length := by
  have h := deleteFrame_spec wStateA (by decide)
  have h2 := h.2.1 (by decide)
  exact ⟨by decide, h2.1, h2.2.1, h2.2.2, h.2.2⟩

/-- C10: deleting with at least two frames and the cursor in range keeps
every other frame with its content: frames below the cursor keep their
index, frames above the cursor move down to index minus one. -/
theorem deleteFrame_other_frames {α : Type} (st : AppState α)
    (h2 : 2 ≤ st.frames.length) (hc : st.currentFrame < st.frames.length) :
    (∀ i, i < st.currentFrame →
      read (deleteFrame st).frames i = read st.frames i) ∧
    (∀ i, st.currentFrame < i → i < st.frames.length →
      read (deleteFrame st).frames (i - 1) = read st.frames i) := by
  constructor
  · intro i hi
    rw [read_deleteFrame st h2 hc, if_pos hi]
  · intro i hi _
    rw [read_deleteFrame st h2 hc, if_neg (by omega)]
    have harith : i - 1 + 1 = i := by omega
    rw [harith]

/-- A concrete three-frame state with the cursor in the middle. -/
def wStateB : AppState Nat :=
  { tool := "brush", color := "#222222", frames := [some 5, some 7, some 9],
    currentFrame := 1, playing := false, drawing := false, lastPt := (0, 0),
    dirty := false, canvas := none }

theorem deleteFrame_other_frames_witness :
    2 ≤ wStateB.frames.length ∧
    wStateB.currentFrame < wStateB.frames.length ∧
    read (deleteFrame wStateB).frames 0 = read wStateB.frames 0 ∧
    read (deleteFrame wStateB).frames 1 = read wStateB.frames 2 := by
  have h := deleteFrame_other_frames wStateB (by decide) (by decide)
  exact ⟨by decide, by decide, h.1 0 (by decide), h.2 2 (by decide) (by decide)⟩

lemma mapIdx_ident {β : Type} (l : List β) :
    (l.mapIdx fun _ a => a) = l := by
  induction l with
  | nil => rfl
  | cons x xs ih => rw [List.mapIdx_cons, ih]

lemma mapIdx_set_eq {α : Type} (l : List (Frame α)) (c : Nat) (v : α) :
    (l.mapIdx fun i f => if i = c then some v else f) = l.set c (some v) := by
  induction l generalizing c with
  | nil => rfl
  | cons x xs ih =>
    cases c with
    | zero =>
      rw [List.mapIdx_cons, List.set_cons_zero, if_pos rfl]
      congr 1
      have h0 : (fun i (f : Frame α) => if i + 1 = 0 then some v else f)
          = fun _ f => f := by
        funext i f
        rw [if_neg (Nat.succ_ne_zero i)]
      rw [h0, mapIdx_ident]
    | succ k =>
      rw [List.mapIdx_cons, List.set_cons_succ,
        if_neg (Ne.symm (Nat.succ_ne_zero k))]
      congr 1
      have hfun : (fun i (f : Frame α) => if i + 1 = k + 1 then some v else f)
          = fun i f => if i = k then some v else f := by
        funext i f
        by_cases hik : i = k
        · rw [if_pos (by omega), if_pos hik]
        · rw [if_neg (by omega), if_neg hik]
      rw [hfun, ih]

lemma commitCanvas_frames {α : Type} (st : AppState α) (img : α) :
    (commitCanvas st img).frames
      = st.frames.set st.currentFrame (some img) := by
  simp only [commitCanvas]
  exact mapIdx_set_eq st.frames st.currentFrame img

/-- C4: committing a surface at the in-range cursor and reading the cursor
back returns exactly that surface, committing the same surface twice is
the same state as committing it once, and the manual save (copyFrame)
applied twice is the same state as applied once. -/
theorem commit_read_roundtrip_idem {α : Type} (st : AppState α) (img : α)
    (snapshot : Frame α → α) (h : st.currentFrame < st.frames.length) :
    read (commitCanvas st img).frames (commitCanvas st img).currentFrame
      = some img ∧
    (commitCanvas st img).currentFrame = st.currentFrame ∧
    commitCanvas (commitCanvas st img) img = commitCanvas st img ∧
    copyFrame snapshot (copyFrame snapshot st) = copyFrame snapshot st := by
  have hcur : (commitCanvas st img).currentFrame = st.currentFrame := rfl
  have hidem : ∀ v : α, commitCanvas (commitCanvas st v) v = commitCanvas st v := by
    intro v
    simp only [commitCanvas, mapIdx_set_eq, List.set_set]
  refine ⟨?_, hcur, hidem img, ?_⟩
  · rw [hcur, commitCanvas_frames, read, List.getD_eq_getElem?_getD,
      List.getElem?_set_eq_of_lt (some img) h]
    rfl
  · show commitCanvas (commitCanvas st (snapshot st.canvas))
        (snapshot (commitCanvas st (snapshot st.canvas)).canvas)
      = commitCanvas st (snapshot st.canvas)
    have hcanvas : (commitCanvas st (snapshot st.canvas)).canvas
        = st.canvas := rfl
    rw [hcanvas]
    exact hidem (snapshot st.canvas)

theorem commit_read_roundtrip_idem_witness :
    wStateA.currentFrame < wStateA.frames.length ∧
    read (commitCanvas wStateA 42).frames
        (commitCanvas wStateA 42).currentFrame = some 42 ∧
    commitCanvas (commitCanvas wStateA 42) 42 = commitCanvas wStateA 42 ∧
    copyFrame (fun c => c.getD 0) (copyFrame (fun c => c.getD 0) wStateA)
      = copyFrame (fun c => c.getD 0) wStateA := by
  have h := commit_read_roundtrip_idem wStateA 42 (fun c => c.getD 0) (by decide)
  exact ⟨by decide, h.1, h.2.2.1, h.2.2.2⟩

lemma playbackTick_playing {α : Type} (st : AppState α) :
    (playbackTick st).playing = st.playing := by
  simp only [playbackTick]; split <;> rfl

lemma playbackTick_frames {α : Type} (st : AppState α) :
    (playbackTick st).frames = st.frames := by
  simp only [playbackTick]; split <;> rfl

lemma runTicks_playing {α : Type} (st : AppState α) (k : Nat) :
    (runTicks st k).playing = st.playing := by
  induction k with
  | zero => rfl
  | succ k ih => rw [runTicks, playbackTick_playing, ih]

lemma runTicks_frames {α : Type} (st : AppState α) (k : Nat) :
    (runTicks st k).frames = st.frames := by
  induction k with
  | zero => rfl
  | succ k ih => rw [runTicks, playbackTick_frames, ih]

lemma playbackTick_of_playing {α : Type} (st : AppState α)
    (hp : st.playing = true) :
    playbackTick st
      = { st with currentFrame := (st.currentFrame + 1) % st.frames.length } := by
  simp only [playbackTick, hp]
  rfl

lemma playbackTick_of_paused {α : Type} (st : AppState α)
    (hp : st.playing = false) : playbackTick st = st := by
  simp only [playbackTick, hp]
  rfl

/-- C5: while playing with the cursor in range, k playback ticks leave the
cursor at (c0 + k) mod length - each tick advances by one with
unconditional wraparound and no end-of-animation stop - and a tick on a
paused state changes nothing. -/
theorem playback_spec {α : Type} (st : AppState α) (k : Nat)
    (hp : st.playing = true) (hc : st.currentFrame < st.frames.length) :
    (runTicks st k).currentFrame
      = (st.currentFrame + k) % st.frames.length ∧
    (∀ st2 : AppState α, st2.playing = false → playbackTick st2 = st2) := by
  constructor
  · induction k with
    | zero =>
      show st.currentFrame = (st.currentFrame + 0) % st.frames.length
      rw [Nat.add_zero, Nat.mod_eq_of_lt hc]
    | succ k ih =>
      have hp' : (runTicks st k).playing = true := by
        rw [runTicks_playing]; exact hp
      show (playbackTick (runTicks st k)).currentFrame = _
      rw [playbackTick_of_playing (runTicks st k) hp']
      show ((runTicks st k).currentFrame + 1) % (runTicks st k).frames.length
        = _
      rw [runTicks_frames, ih, Nat.mod_add_mod, Nat.add_assoc]
  · intro st2 h2
    exact playbackTick_of_paused st2 h2

theorem playback_spec_witness :
    wStateA.playing = true ∧
    wStateA.currentFrame < wStateA.frames.length ∧
    (runTicks wStateA 3).currentFrame
      = (wStateA.currentFrame + 3) % wStateA.frames.length ∧
    wStateB.playing = false ∧
    playbackTick wStateB = wStateB := by
  have h := playback_spec wStateA 3 (by decide) (by decide)
  exact ⟨by decide, by decide, h.1, by decide, h.2 wStateB (by decide)⟩

/-- The off-screen canvas prepared for one exported frame in handleExport:
520 by 390, the frame pixels put onto it, encoded with toDataURL as
image/png (a lossless format); encoding is modeled as pixel-preserving. -/
structure ExportedImage (α : Type) where
  width : Nat
  height : Nat
  format : String
  data : α
deriving DecidableEq

/-- Encode one non-blank frame for export, as handleExport does. -/
def encodeFrame {α : Type} (img : α) : ExportedImage α :=
  { width := CANVAS_WIDTH, height := CANVAS_HEIGHT, format := "image/png",
    data := img }

/-- The zip produced by handleExport: its download name and its files. -/
structure ExportArchive (α : Type) where
  name : String
  files : List (String × ExportedImage α)
deriving DecidableEq

/-- The file name used in handleExport for the frame at position i. -/
def frameFileName (i : Nat) : String := "frame" ++ toString (i + 1) ++ ".png"

/-- One step of the forEach loop in handleExport: a null frame adds no
file, a non-null frame at position i adds frameFileName i with its
encoded image. -/
def exportEntry {α : Type} (p : Nat × Frame α) :
    Option (String × ExportedImage α) :=
  match p.2 with
  | none => none
  | some img => some (frameFileName p.1, encodeFrame img)

/-- handleExport in App.js: walk frames with their positions in order,
keep an entry per non-null frame, and bundle them as animation.zip. -/
def handleExport {α : Type} (frames : List (Frame α)) : ExportArchive α :=
  { name := "animation.zip", files := frames.enum.filterMap exportEntry }

lemma read_eq_some_iff_getElem? {α : Type} (frames : List (Frame α)) (i : Nat)
    (img : α) : read frames i = some img ↔ frames[i]? = some (some img) := by
  rw [read, List.getD_eq_getElem?_getD]
  cases h : frames[i]? with
  | none => simp
  | some f => simp

lemma export_files_length_aux {α : Type} (fs : List (Frame α)) :
    ∀ n : Nat, ((List.enumFrom n fs).filterMap exportEntry).length
      = (fs.filter fun f => f.isSome).length := by
  induction fs with
  | nil => intro n; rfl
  | cons f fs ih =>
    intro n
    cases f with
    | none =>
      show ((List.enumFrom (n + 1) fs).filterMap exportEntry).length = _
      rw [ih (n + 1)]
      rfl
    | some img =>
      show (((n, some img) :: List.enumFrom (n + 1) fs).filterMap
          exportEntry).length = _
      rw [List.filterMap_cons]
      show ((frameFileName n, encodeFrame img)
          :: (List.enumFrom (n + 1) fs).filterMap exportEntry).length = _
      rw [List.length_cons, ih (n + 1)]
      rfl

lemma pairwise_fst_lt_enumFrom {α : Type} (l : List (Frame α)) :
    ∀ n : Nat, List.Pairwise (fun p q => p.1 < q.1) (List.enumFrom n l) := by
  induction l with
  | nil => intro n; exact List.Pairwise.nil
  | cons a as ih =>
    intro n
    refine List.Pairwise.cons ?_ (ih (n + 1))
    intro q hq
    have := List.le_fst_of_mem_enumFrom hq
    omega

/-- C6: handleExport walks the frames in order of position, produces
exactly one file per non-blank frame and none for blank frames, names
each file frame(i+1).png after the 1-based original position i+1 (not
the compacted post-filter sequence number), encodes each image at
exactly 520 by 390 as image/png with the frame pixels preserved, and
bundles everything as animation.zip. -/
theorem handleExport_spec {α : Type} (frames : List (Frame α)) :
    (handleExport frames).name = "animation.zip" ∧
    (handleExport frames).files.length
      = (frames.filter fun f => f.isSome).length ∧
    (∀ i img, read frames i = some img →
      (frameFileName i, encodeFrame img) ∈ (handleExport frames).files) ∧
    (∀ e, e ∈ (handleExport frames).files → ∃ i img,
      read frames i = some img ∧ e = (frameFileName i, encodeFrame img) ∧
      e.2.width = CANVAS_WIDTH ∧ e.2.height = CANVAS_HEIGHT ∧
      e.2.format = "image/png" ∧ e.2.data = img) ∧
    (∃ ps : List (Nat × α),
      List.Pairwise (fun p q => p.1 < q.1) ps ∧
      (∀ p, p ∈ ps → read frames p.1 = some p.2) ∧
      (handleExport frames).files
        = ps.map fun p => (frameFileName p.1, encodeFrame p.2)) := by
  refine ⟨rfl, export_files_length_aux frames 0, ?_, ?_, ?_⟩
  · intro i img h
    have hidx : frames[i]? = some (some img) :=
      (read_eq_some_iff_getElem? frames i img).mp h
    have hmem : (i, some img) ∈ frames.enum :=
      List.mk_mem_enum_iff_getElem?.mpr hidx
    exact List.mem_filterMap.mpr ⟨(i, some img), hmem, rfl⟩
  · intro e he
    obtain ⟨⟨i, f⟩, hmem, hg⟩ := List.mem_filterMap.mp he
    cases f with
    | none => exact absurd hg (by simp [exportEntry])
    | some img =>
      have he2 : e = (frameFileName i, encodeFrame img) := by
        have : exportEntry (i, some img)
            = some (frameFileName i, encodeFrame img) := rfl
        rw [this] at hg
        exact (Option.some_inj.mp hg).symm
      refine ⟨i, img, ?_, he2, ?_, ?_, ?_, ?_⟩
      · exact (read_eq_some_iff_getElem? frames i img).mpr
          (List.mk_mem_enum_iff_getElem?.mp hmem)
      all_goals rw [he2]; rfl
  · refine ⟨frames.enum.filterMap
      (fun p => p.2.map fun img => (p.1, img)), ?_, ?_, ?_⟩
    · refine List.Pairwise.filterMap _ ?_ (pairwise_fst_lt_enumFrom frames 0)
      intro a b hab x hx y hy
      have hxa : x.1 = a.1 := by
        cases ha : a.2 with
        | none => rw [ha] at hx; exact absurd hx (by simp)
        | some img =>
          rw [ha] at hx
          have h1 : (a.1, img) = x := Option.some_inj.mp (Option.mem_def.mp hx)
          rw [← h1]
      have hyb : y.1 = b.1 := by
        cases hb : b.2 with
        | none => rw [hb] at hy; exact absurd hy (by simp)
        | some img =>
          rw [hb] at hy
          have h1 : (b.1, img) = y := Option.some_inj.mp (Option.mem_def.mp hy)
          rw [← h1]
      rw [hxa, hyb]
      exact hab
    · intro p hp
      obtain ⟨⟨i, f⟩, hmem, hg⟩ := List.mem_filterMap.mp hp
      cases f with
      | none => exact absurd hg (by simp)
      | some img =>
        have h1 : (i, img) = p := Option.some_inj.mp hg
        rw [← h1]
        exact (read_eq_some_iff_getElem? frames i img).mpr
          (List.mk_mem_enum_iff_getElem?.mp hmem)
    · show (handleExport frames).files = List.map _ (List.filterMap _ _)
      rw [List.map_filterMap]
      show List.filterMap exportEntry frames.enum = _
      congr 1
      funext p
      cases hp : p.2 with
      | none => simp [exportEntry, hp]
      | some img => simp [exportEntry, hp]

/-- The frame list from the spec export scenario: blank, S1, blank, S2. -/
def wFrames : List (Frame Nat) := [none, some 3, none, some 4]

theorem handleExport_spec_witness :
    (handleExport wFrames).name = "animation.zip" ∧
    (handleExport wFrames).files.length = 2 ∧
    (frameFileName 1, encodeFrame 3) ∈ (handleExport wFrames).files ∧
    (frameFileName 3, encodeFrame 4) ∈ (handleExport wFrames).files ∧
    frameFileName 1 = "frame2.png" ∧ frameFileName 3 = "frame4.png" := by
  have h := handleExport_spec wFrames
  refine ⟨h.1, h.2.1.trans (by decide), ?_, ?_, by decide, by decide⟩
  · exact h.2.2.1 1 3 (by decide)
  · exact h.2.2.1 3 4 (by decide)

/-- getBoundingClientRect of the canvas element, supplied by the browser. -/
structure Rect where
  left : Rat
  top : Rat
deriving DecidableEq

/-- A pointer event in client coordinates; JS numbers are modeled as
rationals and Math.floor as Int.floor. -/
structure PointerEvent where
  clientX : Rat
  clientY : Rat
deriving DecidableEq

/-- handlePointerDown in App.js: returns early unless the tool is the
brush; otherwise starts a stroke and records the floored canvas-relative
point. -/
def handlePointerDown {α : Type} (st : AppState α) (rect : Rect)
    (e : PointerEvent) : AppState α :=
  if st.tool ≠ "brush" then st
  else
    { st with drawing := true,
              lastPt := (Int.floor (e.clientX - rect.left),
                         Int.floor (e.clientY - rect.top)) }

/-- handlePointerMove in App.js: returns early unless a stroke is active
and the tool is the brush; otherwise draws a segment from lastPt to the
floored current point on the live canvas in the active color (the
external stroke collaborator models the ctx drawing calls), records the
new point, and marks the session dirty. -/
def handlePointerMove {α : Type}
    (stroke : Frame α → Int × Int → Int × Int → String → α)
    (st : AppState α) (rect : Rect) (e : PointerEvent) : AppState α :=
  if st.drawing = false ∨ st.tool ≠ "brush" then st
  else
    let x : Int := Int.floor (e.clientX - rect.left)
    let y : Int := Int.floor (e.clientY - rect.top)
    { st with canvas := some (stroke st.canvas st.lastPt (x, y) st.color),
              lastPt := (x, y),
              dirty := true }

/-- handlePointerUp in App.js, also wired to onPointerLeave: ends the
stroke. -/
def handlePointerUp {α : Type} (st : AppState α) : AppState α :=
  { st with drawing := false }

/-- The point lies on the 520 by 390 canvas. -/
def InCanvas (p : Int × Int) : Prop :=
  0 ≤ p.1 ∧ p.1 < CANVAS_WIDTH ∧ 0 ≤ p.2 ∧ p.2 < CANVAS_HEIGHT

instance (p : Int × Int) : Decidable (InCanvas p) :=
  inferInstanceAs (Decidable (0 ≤ p.1 ∧ p.1 < CANVAS_WIDTH
    ∧ 0 ≤ p.2 ∧ p.2 < CANVAS_HEIGHT))

/-- A client rect with the canvas at the origin. -/
def wRect : Rect := { left := 0, top := 0 }

/-- A pointer event far outside the 520 by 390 canvas. -/
def wEventFar : PointerEvent := { clientX := 1000, clientY := -5 }

/-- A concrete stroke collaborator. -/
def wStroke : Frame Nat → Int × Int → Int × Int → String → Nat :=
  fun _ _ _ _ => 1

/-- C7 counterexample: on a pointer-down at client point (1000, -5) over a
canvas at the origin, the recorded last point is (1000, -5) itself, which
lies outside the 520 by 390 canvas: the core stores the coordinates
unclamped. -/
theorem pointer_clamp_counterexample :
    (handlePointerDown wStateA wRect wEventFar).lastPt = (1000, -5) ∧
    ¬ InCanvas (handlePointerDown wStateA wRect wEventFar).lastPt := by
  have hcond : ¬ (wStateA.tool ≠ "brush") := by decide
  have h1 : (handlePointerDown wStateA wRect wEventFar).lastPt
      = (1000, -5) := by
    unfold handlePointerDown
    rw [if_neg hcond]
    show ((Int.floor ((1000 : Rat) - 0)), (Int.floor ((-5 : Rat) - 0)))
      = ((1000 : Int), (-5 : Int))
    norm_num
  refine ⟨h1, ?_⟩
  rw [h1]
  decide

/-- C7 amended: the pointer handlers are total state transitions, so no
drawing-input event can fail, but the core does not clamp: with the brush
active, pointer-down, and pointer-move during a stroke, store the floor
of the raw canvas-relative coordinates as the last point even when these
lie outside the 520 by 390 canvas, and neither handler touches the frame
store or the cursor. -/
theorem pointer_no_clamp {α : Type}
    (stroke : Frame α → Int × Int → Int × Int → String → α)
    (st : AppState α) (rect : Rect) (e : PointerEvent)
    (ht : st.tool = "brush") :
    (handlePointerDown st rect e).lastPt
      = (Int.floor (e.clientX - rect.left), Int.floor (e.clientY - rect.top)) ∧
    (st.drawing = true →
      (handlePointerMove stroke st rect e).lastPt
        = (Int.floor (e.clientX - rect.left),
           Int.floor (e.clientY - rect.top))) ∧
    (handlePointerDown st rect e).frames = st.frames ∧
    (handlePointerDown st rect e).currentFrame = st.currentFrame ∧
    (handlePointerMove stroke st rect e).frames = st.frames ∧
    (handlePointerMove stroke st rect e).currentFrame = st.currentFrame := by
  have hcond : ¬ (st.tool ≠ "brush") := fun h => h ht
  have hdown : handlePointerDown st rect e
      = { st with drawing := true,
                  lastPt := (Int.floor (e.clientX - rect.left),
                             Int.floor (e.clientY - rect.top)) } := by
    unfold handlePointerDown
    rw [if_neg hcond]
  refine ⟨by rw [hdown], ?_, by rw [hdown], by rw [hdown], ?_, ?_⟩
  · intro hd
    have hmcond : ¬ (st.drawing = false ∨ st.tool ≠ "brush") := by
      intro hor
      cases hor with
      | inl h1 => rw [hd] at h1; cases h1
      | inr h2 => exact h2 ht
    unfold handlePointerMove
    rw [if_neg hmcond]
  · unfold handlePointerMove
    split <;> rfl
  · unfold handlePointerMove
    split <;> rfl

/-- wStateA with an active stroke. -/
def wStateD : AppState Nat :=
  { tool := "brush", color := "#222222", frames := [some 5, some 7],
    currentFrame := 0, playing := false, drawing := true, lastPt := (0, 0),
    dirty := false, canvas := none }

theorem pointer_no_clamp_witness :
    wStateD.tool = "brush" ∧
    (handlePointerDown wStateD wRect wEventFar).lastPt
      = (Int.floor (wEventFar.clientX - wRect.left),
         Int.floor (wEventFar.clientY - wRect.top)) ∧
    (handlePointerMove wStroke wStateD wRect wEventFar).lastPt
      = (Int.floor (wEventFar.clientX - wRect.left),
         Int.floor (wEventFar.clientY - wRect.top)) ∧
    (handlePointerMove wStroke wStateD wRect wEventFar).frames
      = wStateD.frames := by
  have h := pointer_no_clamp wStroke wStateD wRect wEventFar (by decide)
  exact ⟨by decide, h.1, h.2.1 (by decide), h.2.2.2.2.1⟩

/-- C8: navigating to a different frame replaces the live canvas with the
newly selected frame content and leaves the frame store untouched, so
pixels on the live surface that were never committed are discarded: the
frame read back at the old cursor is unchanged and differs from the
abandoned live surface. -/
theorem navigate_discards {α : Type} (st : AppState α) (i : Nat)
    (_hne : i ≠ st.currentFrame)
    (hdirty : st.canvas ≠ read st.frames st.currentFrame) :
    (navigate st i).canvas = read st.frames i ∧
    (navigate st i).currentFrame = i ∧
    (navigate st i).frames = st.frames ∧
    read (navigate st i).frames st.currentFrame
      = read st.frames st.currentFrame ∧
    read (navigate st i).frames st.currentFrame ≠ st.canvas := by
  refine ⟨rfl, rfl, rfl, rfl, ?_⟩
  exact Ne.symm hdirty

/-- wStateA with uncommitted pixels on the live canvas. -/
def wStateC : AppState Nat :=
  { tool := "brush", color := "#222222", frames := [some 5, some 7],
    currentFrame := 0, playing := false, drawing := false, lastPt := (0, 0),
    dirty := true, canvas := some 9 }

theorem navigate_discards_witness :
    (1 : Nat) ≠ wStateC.currentFrame ∧
    wStateC.canvas ≠ read wStateC.frames wStateC.currentFrame ∧
    (navigate wStateC 1).canvas = read wStateC.frames 1 ∧
    (navigate wStateC 1).frames = wStateC.frames ∧
    read (navigate wStateC 1).frames wStateC.currentFrame ≠ wStateC.canvas := by
  have h := navigate_discards wStateC 1 (by decide) (by decide)
  exact ⟨by decide, by decide, h.1, h.2.2.1, h.2.2.2.2⟩

/-- C9: a pointer-move with no active stroke (never started, or ended by
pointer-up or pointer-leave) or with a non-brush tool leaves the whole
state unchanged: nothing is drawn, dirty stays clear, and frames, cursor
and last point are untouched; in particular a move right after pointer-up
is a no-op. -/
theorem pointerMove_inactive_noop {α : Type}
    (stroke : Frame α → Int × Int → Int × Int → String → α)
    (st : AppState α) (rect : Rect) (e : PointerEvent)
    (h : st.drawing = false ∨ st.tool ≠ "brush") :
    handlePointerMove stroke st rect e = st ∧
    handlePointerMove stroke (handlePointerUp st) rect e
      = handlePointerUp st := by
  constructor
  · unfold handlePointerMove
    rw [if_pos h]
  · have h2 : (handlePointerUp st).drawing = false
        ∨ (handlePointerUp st).tool ≠ "brush" := Or.inl rfl
    unfold handlePointerMove
    rw [if_pos h2]

theorem pointerMove_inactive_noop_witness :
    (wStateA.drawing = false ∨ wStateA.tool ≠ "brush") ∧
    handlePointerMove wStroke wStateA wRect wEventFar = wStateA ∧
    handlePointerMove wStroke (handlePointerUp wStateA) wRect wEventFar
      = handlePointerUp wStateA := by
  have h := pointerMove_inactive_noop wStroke wStateA wRect wEventFar
    (Or.inl (by decide))
  exact ⟨Or.inl (by decide), h.1, h.2⟩

end FlashAnimEdit
